import Mathlib

/-!
# Mount validation of the swarm container executor

A shallow embedding of `daemon/cluster/executor/container/validate.go`:
`validateMounts`, `validateMountAbs`, `windowsPathAbs`, `volumeNameLen` and
`isSlash`, followed by the properties proved about them.

Conventions of the embedding.

* A Go `string` is a sequence of bytes: `GoString := List Byte`, a byte being
  its numeric value.  `len(s)` is `s.length`.
* A Go run-time panic (an index or a slice bound out of range) is the outer
  `Option`: `none` is a panic, `some v` a normal return of `v`.
* A Go `error` result is `Except GoString Unit`: `.ok ()` is `nil` and
  `.error msg` an error whose message is `msg`.
* What the file takes from other packages (`runtime.GOOS`, `filepath.IsAbs`
  and the `%s` rendering of an `api.MountType`) is the parameter `Env`.
-/

namespace Validate

/-- A byte of a Go string, as its numeric value. -/
abbrev Byte := Nat

/-- A Go string: its bytes in order. -/
abbrev GoString := List Byte

/-- The bytes of an ASCII string literal of the source. -/
def str (s : String) : GoString := s.toList.map Char.toNat

/-- Indexing `path[i]`: `none` is the index-out-of-range panic. -/
def index (path : GoString) (i : Nat) : Option Byte := path[i]?

/-- The slice `path[lo:]`: `none` is the slice-bounds-out-of-range panic. -/
def sliceFrom (path : GoString) (lo : Nat) : Option GoString :=
  if lo ≤ path.length then some (path.drop lo) else none

/-- The slice `path[:hi]`: `none` is the slice-bounds-out-of-range panic. -/
def sliceTo (path : GoString) (hi : Nat) : Option GoString :=
  if hi ≤ path.length then some (path.take hi) else none

/-- Modelled from the spec: the mount type `api.MountType`, declared in the
orchestrator api package and not in this file: the enum Bind, Volume, Tmpfs,
NamedPipe, and any other value of the type, outside the enum. -/
inductive MountType where
  | MountTypeBind
  | MountTypeVolume
  | MountTypeTmpfs
  | MountTypeNamedPipe
  | unknown (v : Int)
  deriving DecidableEq, Repr

deriving instance DecidableEq for Except

/-- Modelled from the spec: the fields of `api.Mount` that the validator
reads (the struct is declared in the orchestrator api package). -/
structure Mount where
  Typ : MountType
  Source : GoString
  Target : GoString
  deriving DecidableEq, Repr

/-- What the file uses from other packages: `runtime.GOOS`, the host's native
rule `filepath.IsAbs`, and the `%s` rendering of a mount type. -/
structure Env where
  GOOS : GoString
  IsAbs : GoString → Bool
  typeString : MountType → GoString

/-- Modelled from the spec: the native absolute-path rule `filepath.IsAbs` of a
POSIX host (Go standard library): the path starts with `/` (byte 47). -/
def unixIsAbs (path : GoString) : Bool :=
  match path with
  | c :: _ => c == 47
  | [] => false

/-- Modelled from the spec: the `%s` rendering `<type>` of a mount type (the
`String` method of the api package, not in this file): the names of the enum's
values, and for a value outside the enum its number in decimal.  It is used by the
concrete host `linux` only; the theorems about all hosts take the rendering as
the parameter `Env.typeString`. -/
def typeName : MountType → GoString
  | .MountTypeBind => str "BIND"
  | .MountTypeVolume => str "VOLUME"
  | .MountTypeTmpfs => str "TMPFS"
  | .MountTypeNamedPipe => str "NPIPE"
  | .unknown v => str (toString v)

/-- A non-Windows host: `runtime.GOOS` is `linux` and the native rule is the
POSIX one. -/
def linux : Env := ⟨str "linux", unixIsAbs, typeName⟩

/-- `isSlash`: the byte is `\` (92) or `/` (47). -/
def isSlash (c : Byte) : Bool := c == 92 || c == 47

/-- The inner loop of `volumeNameLen` and the `return n` after it:
`for ; n < l; n++ { if isSlash(path[n]) { break } }; return n`. -/
def shareLoop (path : GoString) (l n : Nat) : Option Nat :=
  if n < l then
    match index path n with
    | none => none
    | some c => if isSlash c then some n else shareLoop path l (n + 1)
  else some n
termination_by l - n

/-- The outer loop of `volumeNameLen`, entered at `n`, and the `return 0`
that follows it: `for ; n < l-1; n++ { ... }; return 0`.  A `break` leaves the
loop and so returns 0. -/
def uncLoop (path : GoString) (l n : Nat) : Option Nat :=
  if n < l - 1 then
    match index path n with
    | none => none
    | some c =>
      if isSlash c then
        -- `n++`, then the reads of `path[n]` at the new `n`
        match index path (n + 1) with
        | none => none
        | some d =>
          if !isSlash d then
            if d == 46 then some 0
            else shareLoop path l (n + 1)
          else some 0
      else uncLoop path l (n + 1)
  else some 0
termination_by l - 1 - n

/-- The guard of the UNC branch, with Go's left-to-right short-circuit
evaluation: `l >= 5 && isSlash(path[0]) && isSlash(path[1]) &&
!isSlash(path[2]) && path[2] != '.'`. -/
def uncGuard (path : GoString) (l : Nat) : Option Bool :=
  if 5 ≤ l then
    match index path 0 with
    | none => none
    | some p0 =>
      if isSlash p0 then
        match index path 1 with
        | none => none
        | some p1 =>
          if isSlash p1 then
            match index path 2 with
            | none => none
            | some p2 => some (!isSlash p2 && p2 != 46)
          else some false
      else some false
  else some false

/-- `volumeNameLen`: the length of the leading volume name of a Windows
path. -/
def volumeNameLen (path : GoString) : Option Nat :=
  if path.length < 2 then some 0
  else
    match index path 0 with
    | none => none
    | some c =>
      match index path 1 with
      | none => none
      | some c1 =>
        if c1 == 58 && ((97 ≤ c && c ≤ 122) || (65 ≤ c && c ≤ 90)) then some 2
        else
          match uncGuard path path.length with
          | none => none
          | some true => uncLoop path path.length 3
          | some false => some 0

/-- `windowsPathAbs`: whether the path is absolute for a Windows path. -/
def windowsPathAbs (path : GoString) : Option Bool :=
  match volumeNameLen path with
  | none => none
  | some l =>
    if l == 0 then some false
    else
      match sliceFrom path l with
      | none => none
      | some rest =>
        if rest == [] then some false
        else
          match index rest 0 with
          | none => none
          | some c => some (isSlash c)

/-- The condition `runtime.GOOS != "windows" &&
len(path[:volumeNameLen(path)]) > 0` of `validateMountAbs`, short-circuit. -/
def fallbackGuard (env : Env) (path : GoString) : Option Bool :=
  if env.GOOS != str "windows" then
    match volumeNameLen path with
    | none => none
    | some n =>
      match sliceTo path n with
      | none => none
      | some v => some (decide (0 < v.length))
  else some false

/-- `validateMountAbs`. -/
def validateMountAbs (env : Env) (path : GoString) : Option Bool :=
  if !env.IsAbs path then
    match fallbackGuard env path with
    | none => none
    | some true =>
      match windowsPathAbs path with
      | none => none
      | some w => if !w then some false else some false
    | some false => some false
  else some true

/-- `validateMounts`: the loop over the mounts, on the mounts left. -/
def validateMounts (env : Env) : List Mount → Option (Except GoString Unit)
  | [] => some (.ok ())
  | mount :: rest =>
    if !env.IsAbs mount.Target && mount.Typ != .MountTypeNamedPipe then
      some (.error (str "invalid mount target, must be an absolute path: " ++ mount.Target))
    else
      match mount.Typ with
      | .MountTypeBind =>
        match validateMountAbs env mount.Source with
        | none => none
        | some a =>
          if !a then
            some (.error (str "invalid bind mount source, must be an absolute path: "
              ++ mount.Source))
          else validateMounts env rest
      | .MountTypeVolume =>
        match validateMountAbs env mount.Source with
        | none => none
        | some a =>
          if a then
            some (.error (str "invalid volume mount source, must not be an absolute path: "
              ++ mount.Source))
          else validateMounts env rest
      | .MountTypeTmpfs =>
        if mount.Source != [] then
          some (.error (str "invalid tmpfs source, source must be empty"))
        else validateMounts env rest
      | _ => some (.error (str "invalid mount type: " ++ env.typeString mount.Typ))

/-- The drive-letter form of a path, in the words of the specification: the
path has at least two bytes, `path[1]` is `:` (58) and `path[0]` is an ASCII
letter, `a`..`z` (97..122) or `A`..`Z` (65..90). -/
def driveLetterForm (path : GoString) : Bool :=
  match index path 0, index path 1 with
  | some c, some c1 => c1 == 58 && ((97 ≤ c && c ≤ 122) || (65 ≤ c && c ≤ 90))
  | _, _ => false

theorem index_lt (path : GoString) (i : Nat) (h : i < path.length) :
    index path i = some (path.get ⟨i, h⟩) := by
  unfold index
  simp [List.getElem?_eq_getElem h]

theorem shareLoop_bounds (path : GoString) (l n : Nat) (hl : l ≤ path.length) (hn : n ≤ l) :
    ∃ r, shareLoop path l n = some r ∧ n ≤ r ∧ r ≤ l := by
  induction n using shareLoop.induct path l with
  | case1 x hx hnone =>
    rw [index_lt path x (by omega)] at hnone
    cases hnone
  | case2 x hx c hc hs =>
    refine ⟨x, ?_, le_refl _, hn⟩
    rw [shareLoop, if_pos hx, hc]
    simp [hs]
  | case3 x hx c hc hs ih =>
    obtain ⟨r, hr, h1, h2⟩ := ih (by omega)
    refine ⟨r, ?_, by omega, h2⟩
    rw [shareLoop, if_pos hx, hc]
    simp [hs, hr]
  | case4 x hx =>
    refine ⟨x, ?_, le_refl _, hn⟩
    rw [shareLoop, if_neg hx]

theorem uncLoop_bounds (path : GoString) (l n : Nat) (hl : l ≤ path.length) :
    ∃ r, uncLoop path l n = some r ∧ r ≤ l := by
  induction n using uncLoop.induct path l with
  | case1 x hx hnone =>
    rw [index_lt path x (by omega)] at hnone
    cases hnone
  | case2 x hx c hc hs hnone =>
    rw [index_lt path (x + 1) (by omega)] at hnone
    cases hnone
  | case3 x hx c hc hs d hd hns hdot =>
    refine ⟨0, ?_, Nat.zero_le _⟩
    rw [uncLoop, if_pos hx, hc]
    simp [hs, hd, hns, hdot]
  | case4 x hx c hc hs d hd hns hdot =>
    obtain ⟨r, hr, _, h2⟩ := shareLoop_bounds path l (x + 1) hl (by omega)
    refine ⟨r, ?_, h2⟩
    rw [uncLoop, if_pos hx, hc]
    simp [hs, hd, hns, hdot, hr]
  | case5 x hx c hc hs d hd hns =>
    refine ⟨0, ?_, Nat.zero_le _⟩
    rw [uncLoop, if_pos hx, hc]
    simp [hs, hd, hns]
  | case6 x hx c hc hs ih =>
    obtain ⟨r, hr, h2⟩ := ih
    refine ⟨r, ?_, h2⟩
    rw [uncLoop, if_pos hx, hc]
    simp [hs, hr]
  | case7 x hx =>
    refine ⟨0, ?_, Nat.zero_le _⟩
    rw [uncLoop, if_neg hx]

theorem uncGuard_total (path : GoString) (l : Nat) (hl : l ≤ path.length) :
    ∃ b, uncGuard path l = some b := by
  unfold uncGuard
  split
  · rw [index_lt path 0 (by omega), index_lt path 1 (by omega), index_lt path 2 (by omega)]
    dsimp only
    split
    · split
      · exact ⟨_, rfl⟩
      · exact ⟨_, rfl⟩
    · exact ⟨_, rfl⟩
  · exact ⟨_, rfl⟩

theorem volumeNameLen_bounds (path : GoString) :
    ∃ n, volumeNameLen path = some n ∧ n ≤ path.length := by
  unfold volumeNameLen
  split
  · exact ⟨0, rfl, Nat.zero_le _⟩
  · rename_i h
    rw [index_lt path 0 (by omega), index_lt path 1 (by omega)]
    dsimp only
    split
    · exact ⟨2, rfl, by omega⟩
    · obtain ⟨b, hb⟩ := uncGuard_total path path.length (le_refl _)
      rw [hb]
      cases b
      · exact ⟨0, rfl, Nat.zero_le _⟩
      · exact uncLoop_bounds path path.length 3 (le_refl _)

theorem windowsPathAbs_total (path : GoString) : ∃ b, windowsPathAbs path = some b := by
  obtain ⟨n, hn, hle⟩ := volumeNameLen_bounds path
  unfold windowsPathAbs
  rw [hn]
  dsimp only
  split
  · exact ⟨_, rfl⟩
  · simp only [sliceFrom, if_pos hle]
    split
    · exact ⟨_, rfl⟩
    · rename_i hne
      cases hd : path.drop n with
      | nil => simp [hd] at hne
      | cons c rest => exact ⟨isSlash c, by simp [index]⟩

theorem fallbackGuard_total (env : Env) (path : GoString) :
    ∃ b, fallbackGuard env path = some b := by
  obtain ⟨n, hn, hle⟩ := volumeNameLen_bounds path
  unfold fallbackGuard
  split
  · rw [hn]
    simp only [sliceTo, if_pos hle]
    exact ⟨_, rfl⟩
  · exact ⟨_, rfl⟩

theorem validateMountAbs_eq (env : Env) (path : GoString) :
    validateMountAbs env path = some (env.IsAbs path) := by
  obtain ⟨g, hg⟩ := fallbackGuard_total env path
  obtain ⟨w, hw⟩ := windowsPathAbs_total path
  unfold validateMountAbs
  rw [hg, hw]
  cases h : env.IsAbs path <;> cases g <;> cases w <;> rfl

/-- One mount on its own: the result, with the classifier evaluated. -/
theorem validateMounts_single (env : Env) (m : Mount) :
    validateMounts env [m] =
      if !env.IsAbs m.Target && m.Typ != .MountTypeNamedPipe then
        some (.error (str "invalid mount target, must be an absolute path: " ++ m.Target))
      else
        match m.Typ with
        | .MountTypeBind =>
          if !env.IsAbs m.Source then
            some (.error (str "invalid bind mount source, must be an absolute path: "
              ++ m.Source))
          else some (.ok ())
        | .MountTypeVolume =>
          if env.IsAbs m.Source then
            some (.error (str "invalid volume mount source, must not be an absolute path: "
              ++ m.Source))
          else some (.ok ())
        | .MountTypeTmpfs =>
          if m.Source != [] then
            some (.error (str "invalid tmpfs source, source must be empty"))
          else some (.ok ())
        | _ => some (.error (str "invalid mount type: " ++ env.typeString m.Typ)) := by
  obtain ⟨ty, s, t⟩ := m
  cases ty <;> simp only [validateMounts, validateMountAbs_eq]

/-- The loop, one iteration unrolled: a mount that passes on its own is
skipped, a mount that fails on its own ends the loop with its result. -/
theorem validateMounts_cons (env : Env) (m : Mount) (rest : List Mount) :
    validateMounts env (m :: rest) =
      if validateMounts env [m] = some (.ok ()) then validateMounts env rest
      else validateMounts env [m] := by
  obtain ⟨ty, s, t⟩ := m
  cases ty <;> cases ht : env.IsAbs t <;> rcases s with _ | ⟨c, s⟩ <;>
    simp [validateMounts, validateMountAbs_eq, ht] <;>
    split <;> simp_all

/-- C1 (the code at the failing input): on a non-Windows host the path `C:\data`
does not start with `/`, has the non-empty Windows volume name `C:` of length 2 and
is Windows-absolute, and `validateMountAbs` still returns false for it: the result
of the Windows fallback is not returned. -/
theorem validateMountAbs_windows_fallback_lost :
    unixIsAbs (str "C:\\data") = false ∧
    volumeNameLen (str "C:\\data") = some 2 ∧
    windowsPathAbs (str "C:\\data") = some true ∧
    validateMountAbs linux (str "C:\\data") = some false := by
  decide

/-- C2 (the code at the failing input): on a non-Windows host the bind mount with
Source `C:\data` and Target `/mnt` is rejected with the bind-source error. -/
theorem validateMounts_bind_windows_source_rejected :
    validateMounts linux [⟨.MountTypeBind, str "C:\\data", str "/mnt"⟩] =
      some (.error (str "invalid bind mount source, must be an absolute path: C:\\data")) := by
  decide

/-- C3 (the code on named pipes): every NamedPipe mount, whatever its Source and
Target, skips the target check and is rejected by the default arm of the switch
with the error `invalid mount type: ` followed by the rendering of the type. -/
theorem validateMounts_namedPipe_rejected (env : Env) (s t : GoString) :
    validateMounts env [⟨.MountTypeNamedPipe, s, t⟩] =
      some (.error (str "invalid mount type: " ++ env.typeString .MountTypeNamedPipe)) := by
  simp [validateMounts]

/-- C4: a mount of type Bind, Volume or Tmpfs whose Target the native rule does
not accept is rejected, for every Source, with `invalid mount target, must be an
absolute path: ` followed by the Target; on a POSIX host the native rule rejects
every target that does not start with `/`, the empty string and `C:\data`
included. -/
theorem validateMounts_target_not_abs (env : Env) (m : Mount)
    (hty : m.Typ = .MountTypeBind ∨ m.Typ = .MountTypeVolume ∨ m.Typ = .MountTypeTmpfs)
    (habs : env.IsAbs m.Target = false) :
    validateMounts env [m] =
        some (.error (str "invalid mount target, must be an absolute path: " ++ m.Target)) ∧
      (∀ t : GoString, t.head? ≠ some 47 → unixIsAbs t = false) ∧
      unixIsAbs [] = false ∧ unixIsAbs (str "C:\\data") = false := by
  refine ⟨?_, ?_, rfl, by decide⟩
  · obtain ⟨ty, s, t⟩ := m
    simp only at hty habs
    rcases hty with h | h | h <;> subst h <;> simp [validateMounts, habs]
  · intro t ht
    cases t with
    | nil => rfl
    | cons c r => simpa [unixIsAbs] using ht

/-- Witness of C4: the bind mount with Source `/data` and Target `C:\data` on a
POSIX host. -/
theorem validateMounts_target_not_abs_witness :
    validateMounts linux [⟨.MountTypeBind, str "/data", str "C:\\data"⟩] =
      some (.error (str "invalid mount target, must be an absolute path: C:\\data")) :=
  (validateMounts_target_not_abs linux ⟨.MountTypeBind, str "/data", str "C:\\data"⟩
    (Or.inl rfl) (by decide)).1


theorem validateMounts_single_total (env : Env) (m : Mount) :
    ∃ r, validateMounts env [m] = some r := by
  rw [validateMounts_single]
  split
  · exact ⟨_, rfl⟩
  · split <;> first | exact ⟨_, rfl⟩ | (split <;> exact ⟨_, rfl⟩)

theorem validateMounts_total (env : Env) (ms : List Mount) :
    ∃ r, validateMounts env ms = some r := by
  induction ms with
  | nil => exact ⟨_, rfl⟩
  | cons m rest ih =>
    rw [validateMounts_cons]
    split
    · exact ih
    · exact validateMounts_single_total env m

theorem validateMounts_ok_iff (env : Env) (ms : List Mount) :
    validateMounts env ms = some (.ok ()) ↔
      ∀ m ∈ ms, validateMounts env [m] = some (.ok ()) := by
  induction ms with
  | nil => simp [validateMounts]
  | cons m rest ih =>
    rw [validateMounts_cons]
    by_cases h : validateMounts env [m] = some (.ok ())
    · rw [if_pos h, ih]
      simp [h]
    · rw [if_neg h]
      simp [h]

theorem validateMounts_prefix_ok (env : Env) (pre : List Mount) (rest : List Mount)
    (hpre : ∀ x ∈ pre, validateMounts env [x] = some (.ok ())) :
    validateMounts env (pre ++ rest) = validateMounts env rest := by
  induction pre with
  | nil => rfl
  | cons x pre ih =>
    rw [List.cons_append, validateMounts_cons, if_pos (hpre x (List.mem_cons_self _ _))]
    exact ih (fun y hy => hpre y (List.mem_cons_of_mem _ hy))

/-- C5: `validateMounts` always returns; it returns success exactly when every
mount of the list passes on its own; and when `m` is the first mount of the list
that fails on its own, whatever comes after it, the list returns exactly the error
that `m` returns on its own. -/
theorem validateMounts_first_failure (env : Env) (ms : List Mount) :
    (∃ r, validateMounts env ms = some r) ∧
    (validateMounts env ms = some (.ok ()) ↔
      ∀ m ∈ ms, validateMounts env [m] = some (.ok ())) ∧
    (∀ (pre : List Mount) (m : Mount) (post : List Mount), ms = pre ++ m :: post →
      (∀ x ∈ pre, validateMounts env [x] = some (.ok ())) →
      validateMounts env [m] ≠ some (.ok ()) →
      ∃ e, validateMounts env [m] = some (.error e) ∧
        validateMounts env ms = some (.error e)) := by
  refine ⟨validateMounts_total env ms, validateMounts_ok_iff env ms, ?_⟩
  intro pre m post hms hpre hm
  obtain ⟨r, hr⟩ := validateMounts_single_total env m
  have hms2 : validateMounts env ms = validateMounts env [m] := by
    rw [hms, validateMounts_prefix_ok env pre _ hpre, validateMounts_cons, if_neg hm]
  cases r with
  | ok u => cases u; exact absurd hr hm
  | error e => exact ⟨e, hr, by rw [hms2, hr]⟩

/-- Witness of C5: in a list of three mounts whose second (a volume with an
absolute source) is the first to fail, the list returns the error of the second,
although the third (a tmpfs with a source) fails too. -/
theorem validateMounts_first_failure_witness :
    ∃ e, validateMounts linux [⟨.MountTypeVolume, str "/data", str "/mnt"⟩] = some (.error e) ∧
      validateMounts linux [⟨.MountTypeBind, str "/data", str "/a"⟩,
        ⟨.MountTypeVolume, str "/data", str "/mnt"⟩,
        ⟨.MountTypeTmpfs, str "/data", str "/t"⟩] = some (.error e) :=
  (validateMounts_first_failure linux [⟨.MountTypeBind, str "/data", str "/a"⟩,
        ⟨.MountTypeVolume, str "/data", str "/mnt"⟩,
        ⟨.MountTypeTmpfs, str "/data", str "/t"⟩]).2.2
    [⟨.MountTypeBind, str "/data", str "/a"⟩] ⟨.MountTypeVolume, str "/data", str "/mnt"⟩
    [⟨.MountTypeTmpfs, str "/data", str "/t"⟩] rfl (by decide) (by decide)

/-- C6: for every source and every target that the native rule accepts, exactly
one of the bind mount and the volume mount with that source and target is
accepted, and the other one returns an error. -/
theorem validateMounts_bind_xor_volume (env : Env) (s t : GoString)
    (ht : env.IsAbs t = true) :
    (validateMounts env [⟨.MountTypeBind, s, t⟩] = some (.ok ()) ∧
      ∃ e, validateMounts env [⟨.MountTypeVolume, s, t⟩] = some (.error e)) ∨
    (validateMounts env [⟨.MountTypeVolume, s, t⟩] = some (.ok ()) ∧
      ∃ e, validateMounts env [⟨.MountTypeBind, s, t⟩] = some (.error e)) := by
  simp only [validateMounts_single, ht]
  cases hs : env.IsAbs s
  · right; simp
  · left; simp

/-- Witness of C6: source `myvolume`, target `/mnt` on a POSIX host. -/
theorem validateMounts_bind_xor_volume_witness :
    (validateMounts linux [⟨.MountTypeBind, str "myvolume", str "/mnt"⟩] = some (.ok ()) ∧
      ∃ e, validateMounts linux [⟨.MountTypeVolume, str "myvolume", str "/mnt"⟩]
        = some (.error e)) ∨
    (validateMounts linux [⟨.MountTypeVolume, str "myvolume", str "/mnt"⟩] = some (.ok ()) ∧
      ∃ e, validateMounts linux [⟨.MountTypeBind, str "myvolume", str "/mnt"⟩]
        = some (.error e)) :=
  validateMounts_bind_xor_volume linux (str "myvolume") (str "/mnt") (by decide)

/-- What the error `e` of a mount that fails on its own carries: the Target when
the target check fails, the Source for a bind or volume source, the rendering of
the type for a type without a case; the tmpfs error is a fixed text. -/
theorem validateMounts_single_error (env : Env) (m : Mount) (e : GoString)
    (h : validateMounts env [m] = some (.error e)) :
    (env.IsAbs m.Target = false ∧ m.Typ ≠ .MountTypeNamedPipe ∧ m.Target <:+: e) ∨
    ((env.IsAbs m.Target = true ∨ m.Typ = .MountTypeNamedPipe) ∧
      ((m.Typ = .MountTypeBind ∧ m.Source <:+: e) ∨
       (m.Typ = .MountTypeVolume ∧ m.Source <:+: e) ∨
       (m.Typ = .MountTypeTmpfs ∧ m.Source ≠ [] ∧
          e = str "invalid tmpfs source, source must be empty") ∨
       (m.Typ ≠ .MountTypeBind ∧ m.Typ ≠ .MountTypeVolume ∧ m.Typ ≠ .MountTypeTmpfs ∧
          env.typeString m.Typ <:+: e))) := by
  obtain ⟨ty, s, t⟩ := m
  rw [validateMounts_single] at h
  have suf : ∀ a b : GoString, b <:+: a ++ b := fun a b => (List.suffix_append a b).isInfix
  cases ty <;> cases ht : env.IsAbs t <;> cases hs : env.IsAbs s <;>
    rcases s with _ | ⟨c, s⟩ <;>
    simp [ht, hs] at h <;> subst h <;> simp [ht, suf]

theorem validateMounts_error_split (env : Env) (ms : List Mount) (e : GoString)
    (h : validateMounts env ms = some (.error e)) :
    ∃ (pre : List Mount) (m : Mount) (post : List Mount), ms = pre ++ m :: post ∧
      (∀ x ∈ pre, validateMounts env [x] = some (.ok ())) ∧
      validateMounts env [m] = some (.error e) := by
  induction ms with
  | nil => simp [validateMounts] at h
  | cons m rest ih =>
    rw [validateMounts_cons] at h
    by_cases hm : validateMounts env [m] = some (.ok ())
    · rw [if_pos hm] at h
      obtain ⟨pre, x, post, hrest, hpre, hx⟩ := ih h
      refine ⟨m :: pre, x, post, by rw [hrest, List.cons_append], ?_, hx⟩
      intro y hy
      rcases List.mem_cons.mp hy with rfl | hy
      · exact hm
      · exact hpre y hy
    · rw [if_neg hm] at h
      exact ⟨[], m, rest, rfl, by simp, h⟩

/-- C7 (counterexample): the tmpfs mount with Source `/data` and Target `/mnt`
fails with the fixed message `invalid tmpfs source, source must be empty`, and the
offending Source `/data` is not a substring of that message. -/
theorem validateMounts_tmpfs_error_omits_source :
    validateMounts linux [⟨.MountTypeTmpfs, str "/data", str "/mnt"⟩] =
        some (.error (str "invalid tmpfs source, source must be empty")) ∧
      ¬ (str "/data" <:+: str "invalid tmpfs source, source must be empty") := by
  refine ⟨by decide, ?_⟩
  intro h
  have h47 : (47 : Byte) ∈ str "invalid tmpfs source, source must be empty" :=
    h.subset (by decide)
  revert h47
  decide

/-- C7 (amended): when `validateMounts` fails with message `e`, `e` is the error of
the first mount `m` of the list that fails on its own, and `e` contains the Target
of `m` when its target check fails, the Source of `m` for an invalid bind or volume
source, and the rendering of the type of `m` when the type has no case in the
switch; for a tmpfs mount with a non-empty Source, `e` is the fixed text
`invalid tmpfs source, source must be empty`. -/
theorem validateMounts_error_carries_value (env : Env) (ms : List Mount) (e : GoString)
    (h : validateMounts env ms = some (.error e)) :
    ∃ (pre : List Mount) (m : Mount) (post : List Mount), ms = pre ++ m :: post ∧
      (∀ x ∈ pre, validateMounts env [x] = some (.ok ())) ∧
      validateMounts env [m] = some (.error e) ∧
      ((env.IsAbs m.Target = false ∧ m.Typ ≠ .MountTypeNamedPipe ∧ m.Target <:+: e) ∨
       ((env.IsAbs m.Target = true ∨ m.Typ = .MountTypeNamedPipe) ∧
        ((m.Typ = .MountTypeBind ∧ m.Source <:+: e) ∨
         (m.Typ = .MountTypeVolume ∧ m.Source <:+: e) ∨
         (m.Typ = .MountTypeTmpfs ∧ m.Source ≠ [] ∧
            e = str "invalid tmpfs source, source must be empty") ∨
         (m.Typ ≠ .MountTypeBind ∧ m.Typ ≠ .MountTypeVolume ∧ m.Typ ≠ .MountTypeTmpfs ∧
            env.typeString m.Typ <:+: e)))) := by
  obtain ⟨pre, m, post, hms, hpre, hm⟩ := validateMounts_error_split env ms e h
  exact ⟨pre, m, post, hms, hpre, hm, validateMounts_single_error env m e hm⟩

/-- Witness of C7 (amended): the bind mount with the relative Source `data` fails
and its message contains `data`. -/
theorem validateMounts_error_carries_value_witness :
    ∃ (pre : List Mount) (m : Mount) (post : List Mount),
      [(⟨.MountTypeBind, str "data", str "/mnt"⟩ : Mount)] = pre ++ m :: post ∧
      (∀ x ∈ pre, validateMounts linux [x] = some (.ok ())) ∧
      validateMounts linux [m] =
        some (.error (str "invalid bind mount source, must be an absolute path: data")) ∧
      ((linux.IsAbs m.Target = false ∧ m.Typ ≠ .MountTypeNamedPipe ∧
          m.Target <:+: str "invalid bind mount source, must be an absolute path: data") ∨
       ((linux.IsAbs m.Target = true ∨ m.Typ = .MountTypeNamedPipe) ∧
        ((m.Typ = .MountTypeBind ∧
            m.Source <:+: str "invalid bind mount source, must be an absolute path: data") ∨
         (m.Typ = .MountTypeVolume ∧
            m.Source <:+: str "invalid bind mount source, must be an absolute path: data") ∨
         (m.Typ = .MountTypeTmpfs ∧ m.Source ≠ [] ∧
            str "invalid bind mount source, must be an absolute path: data" =
              str "invalid tmpfs source, source must be empty") ∨
         (m.Typ ≠ .MountTypeBind ∧ m.Typ ≠ .MountTypeVolume ∧ m.Typ ≠ .MountTypeTmpfs ∧
            linux.typeString m.Typ <:+:
              str "invalid bind mount source, must be an absolute path: data")))) :=
  validateMounts_error_carries_value linux [⟨.MountTypeBind, str "data", str "/mnt"⟩]
    (str "invalid bind mount source, must be an absolute path: data") (by decide)

/-- C8: a bind mount whose Target the native rule accepts passes exactly when
`validateMountAbs` returns true for its Source, and otherwise returns
`invalid bind mount source, must be an absolute path: ` followed by the Source; on
a POSIX host the bind mount with Source `/data` and any absolute Target passes. -/
theorem validateMounts_bind_source (env : Env) (s t : GoString)
    (ht : env.IsAbs t = true) :
    (validateMounts env [⟨.MountTypeBind, s, t⟩] = some (.ok ()) ↔
      validateMountAbs env s = some true) ∧
    (validateMountAbs env s ≠ some true →
      validateMounts env [⟨.MountTypeBind, s, t⟩] =
        some (.error (str "invalid bind mount source, must be an absolute path: " ++ s))) ∧
    (∀ u : GoString, unixIsAbs u = true →
      validateMounts linux [⟨.MountTypeBind, str "/data", u⟩] = some (.ok ())) := by
  refine ⟨?_, ?_, ?_⟩
  · rw [validateMounts_single, validateMountAbs_eq]
    cases hs : env.IsAbs s <;> simp [ht]
  · rw [validateMounts_single, validateMountAbs_eq]
    cases hs : env.IsAbs s <;> simp [ht]
  · intro u hu
    have hu2 : linux.IsAbs u = true := hu
    have hd : linux.IsAbs (str "/data") = true := by decide
    rw [validateMounts_single]
    simp [hu2, hd]

/-- Witness of C8: Source `/data`, Target `/mnt` on a POSIX host. -/
theorem validateMounts_bind_source_witness :
    validateMounts linux [⟨.MountTypeBind, str "/data", str "/mnt"⟩] = some (.ok ()) ↔
      validateMountAbs linux (str "/data") = some true :=
  (validateMounts_bind_source linux (str "/data") (str "/mnt") (by decide)).1

/-- C9: a volume mount whose Target the native rule accepts passes exactly when
`validateMountAbs` returns false for its Source, and otherwise returns
`invalid volume mount source, must not be an absolute path: ` followed by the
Source; on a POSIX host, with any absolute Target, Source `myvolume` passes and
Source `/data` is rejected. -/
theorem validateMounts_volume_source (env : Env) (s t : GoString)
    (ht : env.IsAbs t = true) :
    (validateMounts env [⟨.MountTypeVolume, s, t⟩] = some (.ok ()) ↔
      validateMountAbs env s = some false) ∧
    (validateMountAbs env s ≠ some false →
      validateMounts env [⟨.MountTypeVolume, s, t⟩] =
        some (.error (str "invalid volume mount source, must not be an absolute path: "
          ++ s))) ∧
    (∀ u : GoString, unixIsAbs u = true →
      validateMounts linux [⟨.MountTypeVolume, str "myvolume", u⟩] = some (.ok ()) ∧
      validateMounts linux [⟨.MountTypeVolume, str "/data", u⟩] =
        some (.error (str "invalid volume mount source, must not be an absolute path: /data")))
    := by
  refine ⟨?_, ?_, ?_⟩
  · rw [validateMounts_single, validateMountAbs_eq]
    cases hs : env.IsAbs s <;> simp [ht]
  · rw [validateMounts_single, validateMountAbs_eq]
    cases hs : env.IsAbs s <;> simp [ht]
  · intro u hu
    have hu2 : linux.IsAbs u = true := hu
    have hd : linux.IsAbs (str "/data") = true := by decide
    have hv : linux.IsAbs (str "myvolume") = false := by decide
    rw [validateMounts_single, validateMounts_single]
    simp only [hu2, hd, hv]
    exact ⟨rfl, rfl⟩

/-- Witness of C9: Source `myvolume`, Target `/mnt` on a POSIX host. -/
theorem validateMounts_volume_source_witness :
    validateMounts linux [⟨.MountTypeVolume, str "myvolume", str "/mnt"⟩] = some (.ok ()) ↔
      validateMountAbs linux (str "myvolume") = some false :=
  (validateMounts_volume_source linux (str "myvolume") (str "/mnt") (by decide)).1

/-- C10: a tmpfs mount whose Target the native rule accepts passes exactly when
its Source is the empty string, and for every non-empty Source returns exactly
`invalid tmpfs source, source must be empty`; so it does on a POSIX host for
Source `/data` and any absolute Target. -/
theorem validateMounts_tmpfs_source (env : Env) (s t : GoString)
    (ht : env.IsAbs t = true) :
    (validateMounts env [⟨.MountTypeTmpfs, s, t⟩] = some (.ok ()) ↔ s = []) ∧
    (s ≠ [] →
      validateMounts env [⟨.MountTypeTmpfs, s, t⟩] =
        some (.error (str "invalid tmpfs source, source must be empty"))) ∧
    (∀ u : GoString, unixIsAbs u = true →
      validateMounts linux [⟨.MountTypeTmpfs, str "/data", u⟩] =
        some (.error (str "invalid tmpfs source, source must be empty"))) := by
  refine ⟨?_, ?_, ?_⟩
  · rw [validateMounts_single]
    rcases s with _ | ⟨c, s⟩ <;> simp [ht]
  · intro hs
    rw [validateMounts_single]
    rcases s with _ | ⟨c, s⟩
    · exact absurd rfl hs
    · simp [ht]
  · intro u hu
    have hu2 : linux.IsAbs u = true := hu
    rw [validateMounts_single]
    simp only [hu2]
    rfl

/-- Witness of C10: the empty Source and Target `/mnt` on a POSIX host. -/
theorem validateMounts_tmpfs_source_witness :
    validateMounts linux [⟨.MountTypeTmpfs, [], str "/mnt"⟩] = some (.ok ()) ↔
      ([] : GoString) = [] :=
  (validateMounts_tmpfs_source linux [] (str "/mnt") (by decide)).1

/-- What the inner loop returns: the first index from `n` on that holds a
separator, or `l` when there is none. -/
theorem shareLoop_char (path : GoString) (l n : Nat) (hl : l ≤ path.length) (hn : n ≤ l) :
    ∃ k, shareLoop path l n = some k ∧ n ≤ k ∧ k ≤ l ∧
      (∀ j c, n ≤ j → j < k → index path j = some c → isSlash c = false) ∧
      (k = l ∨ ∃ c, index path k = some c ∧ isSlash c = true) := by
  induction n using shareLoop.induct path l with
  | case1 x hx hnone =>
    rw [index_lt path x (by omega)] at hnone
    cases hnone
  | case2 x hx c hc hs =>
    refine ⟨x, ?_, le_refl _, hn, ?_, Or.inr ⟨c, hc, hs⟩⟩
    · rw [shareLoop, if_pos hx, hc]
      simp [hs]
    · intro j c' h1 h2
      omega
  | case3 x hx c hc hs ih =>
    obtain ⟨k, hk, h1, h2, h3, h4⟩ := ih (by omega)
    refine ⟨k, ?_, by omega, h2, ?_, h4⟩
    · rw [shareLoop, if_pos hx, hc]
      simp [hs, hk]
    · intro j c' hj hjk hjc
      by_cases hjx : j = x
      · subst hjx
        rw [hc] at hjc
        cases hjc
        simpa using hs
      · exact h3 j c' (by omega) hjk hjc
  | case4 x hx =>
    refine ⟨x, ?_, le_refl _, hn, ?_, Or.inl (by omega)⟩
    · rw [shareLoop, if_neg hx]
    · intro j c' h1 h2
      omega

/-- The inner loop returns `k` when no index in `[n, k)` holds a separator and
`k` is `l` or holds a separator. -/
theorem shareLoop_eq (path : GoString) (l n k : Nat) (hl : l ≤ path.length)
    (hn : n ≤ k) (hk : k ≤ l)
    (hno : ∀ j c, n ≤ j → j < k → index path j = some c → isSlash c = false)
    (hat : k = l ∨ ∃ c, index path k = some c ∧ isSlash c = true) :
    shareLoop path l n = some k := by
  obtain ⟨r, hr, h1, h2, h3, h4⟩ := shareLoop_char path l n hl (by omega)
  rw [hr]
  congr 1
  rcases Nat.lt_trichotomy r k with h | h | h
  · rcases h4 with h4 | ⟨c, hc, hs⟩
    · omega
    · have := hno r c h1 h hc
      rw [this] at hs
      cases hs
  · exact h
  · rcases hat with hat | ⟨c, hc, hs⟩
    · omega
    · have := h3 k c hn h hc
      rw [this] at hs
      cases hs

/-- The outer loop finds no separator in `[n, l-1)` and returns 0. -/
theorem uncLoop_none (path : GoString) (l n : Nat) (hl : l ≤ path.length)
    (hno : ∀ j c, n ≤ j → j < l - 1 → index path j = some c → isSlash c = false) :
    uncLoop path l n = some 0 := by
  induction n using uncLoop.induct path l with
  | case1 x hx hnone =>
    rw [index_lt path x (by omega)] at hnone
    cases hnone
  | case2 x hx c hc hs hnone =>
    rw [index_lt path (x + 1) (by omega)] at hnone
    cases hnone
  | case3 x hx c hc hs d hd hns hdot =>
    have := hno x c (le_refl _) hx hc
    rw [this] at hs
    cases hs
  | case4 x hx c hc hs d hd hns hdot =>
    have := hno x c (le_refl _) hx hc
    rw [this] at hs
    cases hs
  | case5 x hx c hc hs d hd hns =>
    have := hno x c (le_refl _) hx hc
    rw [this] at hs
    cases hs
  | case6 x hx c hc hs ih =>
    rw [uncLoop, if_pos hx, hc]
    simp only [hs]
    exact ih (fun j c' h1 h2 h3 => hno j c' (by omega) h2 h3)
  | case7 x hx =>
    rw [uncLoop, if_neg hx]

/-- The outer loop, when the first separator from `n` on is at `k < l-1` and
`d` is the byte after it: 0 when `d` is a separator or `.`, and otherwise what the
inner loop returns from `k+1`. -/
theorem uncLoop_found (path : GoString) (l n k : Nat) (d : Byte) (hl : l ≤ path.length)
    (hn : n ≤ k) (hk : k < l - 1)
    (hno : ∀ j c, n ≤ j → j < k → index path j = some c → isSlash c = false)
    (hat : ∃ c, index path k = some c ∧ isSlash c = true)
    (hd : index path (k + 1) = some d) :
    uncLoop path l n =
      if isSlash d = true ∨ d = 46 then some 0 else shareLoop path l (k + 1) := by
  induction n using uncLoop.induct path l with
  | case1 x hx hnone =>
    rw [index_lt path x (by omega)] at hnone
    cases hnone
  | case2 x hx c hc hs hnone =>
    rw [index_lt path (x + 1) (by omega)] at hnone
    cases hnone
  | case3 x hx c hc hs d' hd' hns hdot =>
    have hxk : x = k := by
      by_contra hne
      have := hno x c (le_refl _) (by omega) hc
      rw [this] at hs
      cases hs
    subst hxk
    rw [hd] at hd'
    cases hd'
    rw [uncLoop, if_pos hx, hc]
    simp only [hs, hd]
    simp at hdot
    simp [hdot]
  | case4 x hx c hc hs d' hd' hns hdot =>
    have hxk : x = k := by
      by_contra hne
      have := hno x c (le_refl _) (by omega) hc
      rw [this] at hs
      cases hs
    subst hxk
    rw [hd] at hd'
    cases hd'
    rw [uncLoop, if_pos hx, hc]
    simp only [hs, hd]
    simp at hdot hns
    simp [hdot, hns]
  | case5 x hx c hc hs d' hd' hns =>
    have hxk : x = k := by
      by_contra hne
      have := hno x c (le_refl _) (by omega) hc
      rw [this] at hs
      cases hs
    subst hxk
    rw [hd] at hd'
    cases hd'
    rw [uncLoop, if_pos hx, hc]
    simp only [hs, hd]
    simp at hns
    simp [hns]
  | case6 x hx c hc hs ih =>
    have hxk : x ≠ k := by
      rintro rfl
      obtain ⟨c', hc', hs'⟩ := hat
      rw [hc] at hc'
      cases hc'
      exact hs hs'
    rw [uncLoop, if_pos hx, hc]
    simp only [hs]
    exact ih (by omega) (fun j c' h1 h2 h3 => hno j c' (by omega) h2 h3)
  | case7 x hx =>
    omega

/-- The outer loop always returns, and what it returns: 0 when `[n, l-1)` holds
no separator; otherwise, with `k` the first index that does and `d` the byte after
it, 0 when `d` is a separator or `.`, and what the inner loop returns from `k+1`
when it is neither. -/
theorem uncLoop_char (path : GoString) (l n : Nat) (hl : l ≤ path.length) :
    ∃ r, uncLoop path l n = some r ∧
      ((r = 0 ∧ ∀ j c, n ≤ j → j < l - 1 → index path j = some c → isSlash c = false) ∨
       ∃ k d, n ≤ k ∧ k < l - 1 ∧
         (∀ j c, n ≤ j → j < k → index path j = some c → isSlash c = false) ∧
         (∃ c, index path k = some c ∧ isSlash c = true) ∧
         index path (k + 1) = some d ∧
         ((r = 0 ∧ (isSlash d = true ∨ d = 46)) ∨
          (isSlash d = false ∧ d ≠ 46 ∧ shareLoop path l (k + 1) = some r))) := by
  by_cases hex : ∃ k, n ≤ k ∧ k < l - 1 ∧ ∃ c, index path k = some c ∧ isSlash c = true
  · classical
    have hk := Nat.find_spec hex
    have hmin := fun m => @Nat.find_min _ _ hex m
    generalize Nat.find hex = k at hk hmin
    obtain ⟨hnk, hkl, hat⟩ := hk
    have hno : ∀ j c, n ≤ j → j < k → index path j = some c → isSlash c = false := by
      intro j c h1 h2 h3
      by_contra hs
      exact hmin j h2 ⟨h1, by omega, c, h3, by simpa using hs⟩
    have hd := index_lt path (k + 1) (by omega)
    have hu := uncLoop_found path l n k _ hl hnk hkl hno hat hd
    by_cases hcond : isSlash (path.get ⟨k + 1, by omega⟩) = true ∨ path.get ⟨k + 1, by omega⟩ = 46
    · rw [if_pos hcond] at hu
      exact ⟨0, hu, Or.inr ⟨k, _, hnk, hkl, hno, hat, hd, Or.inl ⟨rfl, hcond⟩⟩⟩
    · rw [if_neg hcond] at hu
      obtain ⟨r, hr, -⟩ := shareLoop_bounds path l (k + 1) hl (by omega)
      refine ⟨r, by rw [hu, hr], Or.inr ⟨k, _, hnk, hkl, hno, hat, hd, Or.inr ⟨?_, ?_, hr⟩⟩⟩
      · simpa using fun h => hcond (Or.inl h)
      · exact fun h => hcond (Or.inr h)
  · have hno : ∀ j c, n ≤ j → j < l - 1 → index path j = some c → isSlash c = false := by
      intro j c h1 h2 h3
      by_contra hs
      exact hex ⟨j, h1, h2, c, h3, by simpa using hs⟩
    exact ⟨0, uncLoop_none path l n hl hno, Or.inl ⟨rfl, hno⟩⟩

theorem volumeNameLen_of_drive (p : GoString) (h : driveLetterForm p = true) :
    volumeNameLen p = some 2 := by
  unfold driveLetterForm at h
  cases h0 : index p 0 with
  | none => simp [h0] at h
  | some c =>
    cases h1 : index p 1 with
    | none => simp [h0, h1] at h
    | some c1 =>
      simp only [h0, h1] at h
      have hlen : ¬ p.length < 2 := by
        intro hlt
        unfold index at h1
        have := List.getElem?_eq_none (l := p) (n := 1) (by omega)
        rw [this] at h1
        cases h1
      unfold volumeNameLen
      rw [if_neg hlen, h0, h1]
      simp only [h, if_true]

theorem volumeNameLen_of_not_drive (p : GoString) (h : driveLetterForm p = false) :
    volumeNameLen p =
      match uncGuard p p.length with
      | none => none
      | some true => uncLoop p p.length 3
      | some false => some 0 := by
  unfold volumeNameLen
  split
  · rename_i hlt
    have : ¬ 5 ≤ p.length := by omega
    simp [uncGuard, this]
  · rename_i hlt
    rw [index_lt p 0 (by omega), index_lt p 1 (by omega)]
    unfold driveLetterForm at h
    rw [index_lt p 0 (by omega), index_lt p 1 (by omega)] at h
    simp only at h
    simp only [h]
    rfl

theorem uncGuard_true_iff (p : GoString) (l : Nat) :
    uncGuard p l = some true ↔
      5 ≤ l ∧ ∃ p0 p1 p2, index p 0 = some p0 ∧ isSlash p0 = true ∧
        index p 1 = some p1 ∧ isSlash p1 = true ∧
        index p 2 = some p2 ∧ isSlash p2 = false ∧ p2 ≠ 46 := by
  unfold uncGuard
  by_cases hl : 5 ≤ l
  · rw [if_pos hl]
    cases h0 : index p 0 with
    | none => simp
    | some p0 =>
      cases hs0 : isSlash p0
      · simp [hl, hs0]
      · cases h1 : index p 1 with
        | none => simp
        | some p1 =>
          cases hs1 : isSlash p1
          · simp [hl, hs0, hs1]
          · cases h2 : index p 2 with
            | none => simp [hs0, hs1]
            | some p2 => simp [hl, hs0, hs1]
  · rw [if_neg hl]
    simp [hl]

/-- `windowsPathAbs` in closed form, from the volume-name length `n`: the length
is not 0 and the byte at `n` exists and is a separator. -/
theorem windowsPathAbs_eq (p : GoString) (n : Nat) (hn : volumeNameLen p = some n) :
    windowsPathAbs p =
      some (decide (n ≠ 0) && match index p n with
        | some c => isSlash c
        | none => false) := by
  obtain ⟨n', hn', hle⟩ := volumeNameLen_bounds p
  rw [hn] at hn'
  cases hn'
  unfold windowsPathAbs
  rw [hn]
  by_cases h0 : n = 0
  · simp [h0]
  · have hidx : index p n = (p.drop n)[0]? := by
      unfold index
      rw [List.getElem?_drop]
      rfl
    simp only [sliceFrom, if_pos hle, hidx]
    cases hd : p.drop n with
    | nil => simp [h0]
    | cons c rest => simp [h0, index]

/-- C11: a mount whose Target the native rule accepts and whose Type is not Bind,
Volume or Tmpfs (a named pipe, or a value outside the enum) returns, for every
Source, the error `invalid mount type: ` followed by the rendering of the Type;
it does not return success. -/
theorem validateMounts_other_type (env : Env) (m : Mount)
    (hb : m.Typ ≠ .MountTypeBind) (hv : m.Typ ≠ .MountTypeVolume)
    (ht : m.Typ ≠ .MountTypeTmpfs) (habs : env.IsAbs m.Target = true) :
    validateMounts env [m] =
        some (.error (str "invalid mount type: " ++ env.typeString m.Typ)) ∧
      validateMounts env [m] ≠ some (.ok ()) := by
  obtain ⟨ty, s, t⟩ := m
  simp only at hb hv ht habs
  cases ty
  · exact absurd rfl hb
  · exact absurd rfl hv
  · exact absurd rfl ht
  · simp [validateMounts, habs]
  · simp [validateMounts, habs]

/-- Witness of C11: a mount of a type outside the enum, with Source `data` and
Target `/mnt` on a POSIX host. -/
theorem validateMounts_other_type_witness :
    validateMounts linux [⟨.unknown 7, str "data", str "/mnt"⟩] =
        some (.error (str "invalid mount type: " ++ linux.typeString (.unknown 7))) ∧
      validateMounts linux [⟨.unknown 7, str "data", str "/mnt"⟩] ≠ some (.ok ()) :=
  validateMounts_other_type linux ⟨.unknown 7, str "data", str "/mnt"⟩
    (by decide) (by decide) (by decide) (by decide)

/-- C12: `windowsPathAbs` always returns, and it returns true exactly when the
volume-name length `n` is not 0, `n` is less than the length of the path and the
byte at `n` is `\` (92) or `/` (47); it is false for `C:`, true for `C:\` and false
for `C:foo`. -/
theorem windowsPathAbs_iff (p : GoString) :
    (∃ b, windowsPathAbs p = some b) ∧
    (windowsPathAbs p = some true ↔
      ∃ n, volumeNameLen p = some n ∧ n ≠ 0 ∧ n < p.length ∧
        (index p n = some 92 ∨ index p n = some 47)) ∧
    windowsPathAbs (str "C:") = some false ∧
    windowsPathAbs (str "C:\\") = some true ∧
    windowsPathAbs (str "C:foo") = some false := by
  refine ⟨windowsPathAbs_total p, ?_, by decide, by decide, by decide⟩
  obtain ⟨n, hn, hle⟩ := volumeNameLen_bounds p
  rw [windowsPathAbs_eq p n hn]
  constructor
  · intro h
    refine ⟨n, hn, ?_⟩
    by_cases hlt : n < p.length
    · rw [index_lt p n hlt] at h ⊢
      simp only [Option.some.injEq, Bool.and_eq_true, decide_eq_true_eq] at h
      refine ⟨h.1, hlt, ?_⟩
      have h2 := h.2
      simp only [isSlash, Bool.or_eq_true, beq_iff_eq] at h2
      rcases h2 with h2 | h2
      · exact Or.inl (by rw [h2])
      · exact Or.inr (by rw [h2])
    · have hnone : index p n = none := by
        unfold index
        exact List.getElem?_eq_none (by omega)
      rw [hnone] at h
      simp at h
  · rintro ⟨n', hn', h0, hlt, hc⟩
    rw [hn] at hn'
    cases hn'
    rcases hc with hc | hc <;> rw [hc] <;> simp [h0, isSlash]

/-- C13: a path whose byte 1 is `:` (58) and whose byte 0 is an ASCII letter (so
the path has at least two bytes) has volume-name length 2, whatever follows; so
have `C:` and `C:\foo`. -/
theorem volumeNameLen_drive_letter (p : GoString) (c : Byte)
    (h0 : index p 0 = some c) (h1 : index p 1 = some 58)
    (hc : (97 ≤ c ∧ c ≤ 122) ∨ (65 ≤ c ∧ c ≤ 90)) :
    volumeNameLen p = some 2 ∧
      volumeNameLen (str "C:") = some 2 ∧ volumeNameLen (str "C:\\foo") = some 2 := by
  refine ⟨volumeNameLen_of_drive p ?_, by decide, by decide⟩
  unfold driveLetterForm
  rw [h0, h1]
  simpa using hc

/-- Witness of C13: the path `z:relative`. -/
theorem volumeNameLen_drive_letter_witness :
    volumeNameLen (str "z:relative") = some 2 ∧
      volumeNameLen (str "C:") = some 2 ∧ volumeNameLen (str "C:\\foo") = some 2 :=
  volumeNameLen_drive_letter (str "z:relative") 122 (by decide) (by decide) (by decide)

/-- C16: the empty string is not absolute: `validateMountAbs` returns false on it
on every host whose native rule rejects it, a POSIX host among them, and so does
`windowsPathAbs`; and a path of fewer than two bytes has volume-name length 0 and
is not Windows-absolute. -/
theorem empty_and_short_not_abs :
    (∀ env : Env, env.IsAbs [] = false → validateMountAbs env [] = some false) ∧
    validateMountAbs linux [] = some false ∧
    windowsPathAbs [] = some false ∧
    (∀ p : GoString, p.length < 2 →
      volumeNameLen p = some 0 ∧ windowsPathAbs p = some false) := by
  refine ⟨?_, by decide, by decide, ?_⟩
  · intro env h
    rw [validateMountAbs_eq, h]
  · intro p hp
    have h0 : volumeNameLen p = some 0 := by
      unfold volumeNameLen
      rw [if_pos hp]
    exact ⟨h0, by rw [windowsPathAbs_eq p 0 h0]; simp⟩

/-- Witness of C16: the one-byte path `/` has volume-name length 0 and is not
Windows-absolute. -/
theorem empty_and_short_not_abs_witness :
    volumeNameLen (str "/") = some 0 ∧ windowsPathAbs (str "/") = some false :=
  empty_and_short_not_abs.2.2.2 (str "/") (by decide)

/-- C17: on every host and for every path, `validateMountAbs` returns what the
native rule `filepath.IsAbs` returns, whatever `volumeNameLen` and `windowsPathAbs`
compute in the fallback branch; on a POSIX host that is whether the path starts
with `/`. -/
theorem validateMountAbs_is_native_rule (env : Env) (p : GoString) :
    validateMountAbs env p = some (env.IsAbs p) ∧
      validateMountAbs linux p = some (unixIsAbs p) ∧
      (unixIsAbs p = true ↔ p.head? = some 47) := by
  refine ⟨validateMountAbs_eq env p, validateMountAbs_eq linux p, ?_⟩
  cases p with
  | nil => simp [unixIsAbs]
  | cons c r => simp [unixIsAbs]

/-- C18: for every path `volumeNameLen` returns without an out-of-range read, and
what it returns is at most the length of the path; so the slices
`path[:volumeNameLen(path)]` and `path[l:]` are in bounds, the read `path[0]` of a
non-empty rest is in bounds, and `windowsPathAbs` and `validateMountAbs` return
without a panic. -/
theorem no_panic (env : Env) (p : GoString) :
    ∃ n, volumeNameLen p = some n ∧ 0 ≤ n ∧ n ≤ p.length ∧
      (∃ v, sliceTo p n = some v) ∧
      (∃ rest, sliceFrom p n = some rest ∧ (rest ≠ [] → ∃ c, index rest 0 = some c)) ∧
      (∃ b, windowsPathAbs p = some b) ∧
      (∃ b, validateMountAbs env p = some b) := by
  obtain ⟨n, hn, hle⟩ := volumeNameLen_bounds p
  refine ⟨n, hn, Nat.zero_le n, hle, ⟨p.take n, by simp [sliceTo, hle]⟩,
    ⟨p.drop n, by simp [sliceFrom, hle], ?_⟩, windowsPathAbs_total p,
    ⟨_, validateMountAbs_eq env p⟩⟩
  intro hne
  cases hd : p.drop n with
  | nil => exact absurd hd hne
  | cons c rest => exact ⟨c, by simp [index]⟩

theorem index_take (p : GoString) (n j : Nat) (h : j < n) :
    index (p.take n) j = index p j := by
  unfold index
  exact List.getElem?_take_of_lt h

theorem index_some_lt (p : GoString) (j : Nat) (c : Byte) (h : index p j = some c) :
    j < p.length := by
  unfold index at h
  by_contra hge
  rw [List.getElem?_eq_none (by omega)] at h
  cases h

/-- The three outcomes of `volumeNameLen`: 0; 2 for the drive-letter form; and
for a UNC path the end `n` of the share name, where `k` is the separator that ends
the server name and `d` the first byte of the share name. -/
theorem volumeNameLen_char (p : GoString) :
    ∃ n, volumeNameLen p = some n ∧
      (n = 0 ∨ (n = 2 ∧ driveLetterForm p = true) ∨
       (driveLetterForm p = false ∧ uncGuard p p.length = some true ∧
        5 ≤ n ∧ n ≤ p.length ∧
        (n = p.length ∨ ∃ c, index p n = some c ∧ isSlash c = true) ∧
        ∃ k d, 3 ≤ k ∧ k + 2 ≤ n ∧
          (∀ j c, 3 ≤ j → j < k → index p j = some c → isSlash c = false) ∧
          (∃ c, index p k = some c ∧ isSlash c = true) ∧
          index p (k + 1) = some d ∧ isSlash d = false ∧ d ≠ 46 ∧
          (∀ j c, k + 1 ≤ j → j < n → index p j = some c → isSlash c = false))) := by
  cases hdr : driveLetterForm p with
  | true => exact ⟨2, volumeNameLen_of_drive p hdr, Or.inr (Or.inl ⟨rfl, rfl⟩)⟩
  | false =>
    rw [volumeNameLen_of_not_drive p hdr]
    obtain ⟨b, hb⟩ := uncGuard_total p p.length (le_refl _)
    cases b with
    | false => exact ⟨0, by rw [hb], Or.inl rfl⟩
    | true =>
      rw [hb]
      obtain ⟨r, hr, hcases⟩ := uncLoop_char p p.length 3 (le_refl _)
      refine ⟨r, hr, ?_⟩
      rcases hcases with ⟨h0, -⟩ | ⟨k, d, hk3, hkl, hno, hat, hd, hres⟩
      · exact Or.inl h0
      · rcases hres with ⟨h0, -⟩ | ⟨hds, hdd, hsh⟩
        · exact Or.inl h0
        · obtain ⟨r', hr', h1, h2, h3, h4⟩ :=
            shareLoop_char p p.length (k + 1) (le_refl _) (by omega)
          rw [hsh] at hr'
          cases hr'
          have hne : r ≠ k + 1 := by
            intro heq
            rcases h4 with h4 | ⟨c, hc, hs⟩
            · omega
            · rw [heq, hd] at hc
              cases hc
              rw [hds] at hs
              cases hs
          exact Or.inr (Or.inr ⟨rfl, rfl, by omega, h2, h4, k, d, hk3, by omega, hno, hat,
            hd, hds, hdd, h3⟩)

/-- C19: the volume-name length is 0, 2 or at least 5; it is 2 only for a path
in drive-letter form; and when it is `n ≥ 5`, `n` is the length of the path or the
byte at `n` is a separator, so that `windowsPathAbs` returns true exactly when
`n` is less than the length of the path. -/
theorem volumeNameLen_values (p : GoString) :
    ∃ n, volumeNameLen p = some n ∧
      (n = 0 ∨ n = 2 ∨ 5 ≤ n) ∧
      (n = 2 → driveLetterForm p = true) ∧
      (5 ≤ n →
        (n = p.length ∨ ∃ c, index p n = some c ∧ isSlash c = true) ∧
        (windowsPathAbs p = some true ↔ n < p.length) ∧
        (windowsPathAbs p = some false ↔ n = p.length)) := by
  obtain ⟨n, hn, hcases⟩ := volumeNameLen_char p
  refine ⟨n, hn, ?_, ?_, ?_⟩
  · rcases hcases with h | ⟨h, -⟩ | ⟨-, -, h, -⟩
    · exact Or.inl h
    · exact Or.inr (Or.inl h)
    · exact Or.inr (Or.inr h)
  · intro h2
    rcases hcases with h | ⟨-, h⟩ | ⟨-, -, h, -⟩
    · omega
    · exact h
    · omega
  · intro h5
    rcases hcases with h | ⟨h, -⟩ | ⟨-, -, -, hle, hat, -⟩
    · omega
    · omega
    · refine ⟨hat, ?_, ?_⟩ <;> rw [windowsPathAbs_eq p n hn]
      · rcases hat with hat | ⟨c, hc, hs⟩
        · have hnone : index p n = none := by
            unfold index
            exact List.getElem?_eq_none (by omega)
          rw [hnone]
          simp [hat]
        · have hlt := index_some_lt p n c hc
          rw [hc]
          have h0 : n ≠ 0 := by omega
          simp [hs, hlt, h0]
      · rcases hat with hat | ⟨c, hc, hs⟩
        · have hnone : index p n = none := by
            unfold index
            exact List.getElem?_eq_none (by omega)
          rw [hnone]
          simp [hat]
        · have hlt := index_some_lt p n c hc
          rw [hc]
          have h0 : n ≠ 0 := by omega
          have hne : n ≠ p.length := by omega
          simp [hs, hne, h0]

/-- C20: with `v = p[:volumeNameLen(p)]` the leading volume name of `p`, the
slice is in bounds and the volume-name length of `v` is the length of `v`, which
is the volume-name length of `p`; for volume-name length 0, `v` is empty. -/
theorem volumeNameLen_idempotent (p : GoString) :
    ∃ n v, volumeNameLen p = some n ∧ sliceTo p n = some v ∧
      volumeNameLen v = some v.length ∧ v.length = n ∧ (n = 0 → v = []) := by
  obtain ⟨n, hn, hcases⟩ := volumeNameLen_char p
  obtain ⟨n', hn', hle⟩ := volumeNameLen_bounds p
  rw [hn] at hn'
  cases hn'
  have hlen : (p.take n).length = n := by
    rw [List.length_take]
    omega
  refine ⟨n, p.take n, hn, by simp [sliceTo, hle], ?_, hlen, fun h0 => by simp [h0]⟩
  rw [hlen]
  rcases hcases with h0 | ⟨h2, hdr⟩ | ⟨hdr, hg, h5, -, -, k, d, hk3, hkn, hno, hat, hd, hds, hdd, hsh⟩
  · subst h0
    rfl
  · subst h2
    apply volumeNameLen_of_drive
    unfold driveLetterForm at hdr ⊢
    rw [index_take p 2 0 (by omega), index_take p 2 1 (by omega)]
    exact hdr
  · have hdr' : driveLetterForm (p.take n) = false := by
      unfold driveLetterForm at hdr ⊢
      rw [index_take p n 0 (by omega), index_take p n 1 (by omega)]
      exact hdr
    have hg' : uncGuard (p.take n) (p.take n).length = some true := by
      rw [uncGuard_true_iff] at hg ⊢
      obtain ⟨-, p0, p1, p2, e0, s0, e1, s1, e2, s2, d2⟩ := hg
      refine ⟨by omega, p0, p1, p2, ?_, s0, ?_, s1, ?_, s2, d2⟩
      · rw [index_take p n 0 (by omega)]; exact e0
      · rw [index_take p n 1 (by omega)]; exact e1
      · rw [index_take p n 2 (by omega)]; exact e2
    rw [volumeNameLen_of_not_drive _ hdr', hg']
    simp only [hlen]
    have hl' : n ≤ (p.take n).length := by omega
    have hno' : ∀ j c, 3 ≤ j → j < k → index (p.take n) j = some c → isSlash c = false := by
      intro j c h1 h2 h3
      rw [index_take p n j (by omega)] at h3
      exact hno j c h1 h2 h3
    have hat' : ∃ c, index (p.take n) k = some c ∧ isSlash c = true := by
      rw [index_take p n k (by omega)]
      exact hat
    have hd' : index (p.take n) (k + 1) = some d := by
      rw [index_take p n (k + 1) (by omega)]
      exact hd
    rw [uncLoop_found (p.take n) n 3 k d hl' hk3 (by omega) hno' hat' hd']
    have hcond : ¬ (isSlash d = true ∨ d = 46) := by
      rw [hds]
      simp [hdd]
    rw [if_neg hcond]
    apply shareLoop_eq (p.take n) n (k + 1) n hl' (by omega) (le_refl _)
    · intro j c h1 h2 h3
      rw [index_take p n j h2] at h3
      exact hsh j c h1 h2 h3
    · exact Or.inl rfl

/-- The bytes of a UNC path `a b s c h r` by index: the two leading bytes, the
server name `s` from index 2, the byte `c` after it, the share name `h`, and the
first byte of the rest `r`. -/
theorem index_unc_parts (a b c : Byte) (s h r : GoString) :
    index (a :: b :: (s ++ c :: (h ++ r))) 0 = some a ∧
    index (a :: b :: (s ++ c :: (h ++ r))) 1 = some b ∧
    (∀ i, i < s.length → index (a :: b :: (s ++ c :: (h ++ r))) (i + 2) = s[i]?) ∧
    index (a :: b :: (s ++ c :: (h ++ r))) (s.length + 2) = some c ∧
    (∀ i, i < h.length →
      index (a :: b :: (s ++ c :: (h ++ r))) (s.length + 3 + i) = h[i]?) ∧
    index (a :: b :: (s ++ c :: (h ++ r))) (s.length + 3 + h.length) = r[0]? := by
  unfold index
  refine ⟨by simp, by simp, ?_, ?_, ?_, ?_⟩
  · intro i hi
    simp only [List.getElem?_cons_succ]
    exact List.getElem?_append_left hi
  · simp only [List.getElem?_cons_succ]
    rw [List.getElem?_append_right (le_refl _)]
    simp
  · intro i hi
    have e : s.length + 3 + i = (s.length + 1 + i) + 1 + 1 := by omega
    rw [e]
    simp only [List.getElem?_cons_succ]
    rw [List.getElem?_append_right (by omega)]
    have e2 : s.length + 1 + i - s.length = i + 1 := by omega
    rw [e2]
    simp only [List.getElem?_cons_succ]
    exact List.getElem?_append_left hi
  · have e : s.length + 3 + h.length = (s.length + 1 + h.length) + 1 + 1 := by omega
    rw [e]
    simp only [List.getElem?_cons_succ]
    rw [List.getElem?_append_right (by omega)]
    have e2 : s.length + 1 + h.length - s.length = h.length + 1 := by omega
    rw [e2]
    simp only [List.getElem?_cons_succ]
    rw [List.getElem?_append_right (le_refl _)]
    simp

/-- C14: for separators `a`, `b`, `c`, a server name `s` and a share name `h` that
are not empty, hold no separator and do not start with `.` (46), and a rest `r`
that is empty or starts with a separator, the volume-name length of `a b s c h r`
is `3 + len(s) + len(h)`, the end of the share name; it is 14 for
`\\server\share`. -/
theorem volumeNameLen_unc (a b c : Byte) (s h r : GoString)
    (ha : isSlash a = true) (hb : isSlash b = true) (hc : isSlash c = true)
    (hs : s ≠ []) (hh : h ≠ [])
    (hsn : ∀ x ∈ s, isSlash x = false) (hhn : ∀ x ∈ h, isSlash x = false)
    (hsd : s.head? ≠ some 46) (hhd : h.head? ≠ some 46)
    (hr : r = [] ∨ ∃ x r', r = x :: r' ∧ isSlash x = true) :
    volumeNameLen (a :: b :: (s ++ c :: (h ++ r))) = some (3 + s.length + h.length) ∧
      volumeNameLen (str "\\\\server\\share") = some 14 := by
  refine ⟨?_, by simp [volumeNameLen, str, index, uncGuard, uncLoop, shareLoop, isSlash]⟩
  obtain ⟨i0, i1, is, ic, ih, ir⟩ := index_unc_parts a b c s h r
  have hlen : (a :: b :: (s ++ c :: (h ++ r))).length = s.length + 3 + h.length + r.length := by
    simp only [List.length_cons, List.length_append]
    omega
  generalize hP : a :: b :: (s ++ c :: (h ++ r)) = P at i0 i1 is ic ih ir hlen
  rcases s with _ | ⟨s0, s'⟩
  · exact absurd rfl hs
  rcases h with _ | ⟨h0, h'⟩
  · exact absurd rfl hh
  have hs0 : isSlash s0 = false := hsn s0 (List.mem_cons_self _ _)
  have hh0 : isSlash h0 = false := hhn h0 (List.mem_cons_self _ _)
  have hs46 : s0 ≠ 46 := by simpa using hsd
  have hh46 : h0 ≠ 46 := by simpa using hhd
  simp only [List.length_cons] at is ic ih ir hlen ⊢
  have hb58 : (b == 58) = false := by
    simp only [isSlash, Bool.or_eq_true, beq_iff_eq] at hb
    rcases hb with hb | hb <;> subst hb <;> rfl
  have hdr : driveLetterForm P = false := by
    unfold driveLetterForm
    rw [i0, i1]
    simp [hb58]
  have i2 : index P 2 = some s0 := by
    have := is 0 (by omega)
    simpa using this
  have hg : uncGuard P P.length = some true := by
    rw [uncGuard_true_iff]
    exact ⟨by omega, a, b, s0, i0, ha, i1, hb, i2, hs0, hs46⟩
  rw [volumeNameLen_of_not_drive P hdr, hg]
  simp only
  have hd : index P (s'.length + 1 + 2 + 1) = some h0 := by
    have := ih 0 (by omega)
    simpa using this
  have hno : ∀ j x, 3 ≤ j → j < s'.length + 1 + 2 → index P j = some x →
      isSlash x = false := by
    intro j x h1 h2 h3
    have e : j = (j - 2) + 2 := by omega
    rw [e, is (j - 2) (by omega)] at h3
    exact hsn x (List.getElem?_mem h3)
  rw [uncLoop_found P P.length 3 (s'.length + 1 + 2) h0 (le_refl _) (by omega) (by omega)
    hno ⟨c, ic, hc⟩ hd]
  have hcond : ¬ (isSlash h0 = true ∨ h0 = 46) := by
    rw [hh0]
    simp [hh46]
  rw [if_neg hcond]
  apply shareLoop_eq P P.length _ _ (le_refl _) (by omega) (by omega)
  · intro j x h1 h2 h3
    have e : j = s'.length + 1 + 3 + (j - (s'.length + 1 + 3)) := by omega
    rw [e, ih (j - (s'.length + 1 + 3)) (by omega)] at h3
    exact hhn x (List.getElem?_mem h3)
  · rcases hr with hr | ⟨x, r', hr, hx⟩
    · left
      rw [hlen, hr]
      simp only [List.length_nil]
      omega
    · right
      refine ⟨x, ?_, hx⟩
      have e : 3 + (s'.length + 1) + (h'.length + 1) = s'.length + 1 + 3 + (h'.length + 1) := by
        omega
      rw [e, ir, hr]
      simp

/-- Witness of C14: `\\server\share\dir`, with the rest `\dir`. -/
theorem volumeNameLen_unc_witness :
    volumeNameLen (92 :: 92 :: (str "server" ++ 92 :: (str "share" ++ str "\\dir"))) =
        some (3 + (str "server").length + (str "share").length) ∧
      volumeNameLen (str "\\\\server\\share") = some 14 :=
  volumeNameLen_unc 92 92 92 (str "server") (str "share") (str "\\dir")
    (by decide) (by decide) (by decide) (by decide) (by decide) (by decide) (by decide)
    (by decide) (by decide) (Or.inr ⟨92, str "dir", by decide, by decide⟩)

/-- C15: a path that is not in drive-letter form has volume-name length 0 when
it has fewer than 5 bytes; or byte 0 or byte 1 is not a separator; or byte 2 is a
separator or `.` (46); or no index `k` with `3 ≤ k ≤ len-2` holds a separator; or
the byte after the first such separator is a separator or `.`.  So have `relative`
and `\\server\.`. -/
theorem volumeNameLen_zero (p : GoString) (hnd : driveLetterForm p = false)
    (h : p.length < 5 ∨
      (∀ c, index p 0 = some c → isSlash c = false) ∨
      (∀ c, index p 1 = some c → isSlash c = false) ∨
      (∃ c, index p 2 = some c ∧ (isSlash c = true ∨ c = 46)) ∨
      (∀ k c, 3 ≤ k → k + 2 ≤ p.length → index p k = some c → isSlash c = false) ∨
      (∃ k c d, 3 ≤ k ∧ k + 2 ≤ p.length ∧ index p k = some c ∧ isSlash c = true ∧
        (∀ j e, 3 ≤ j → j < k → index p j = some e → isSlash e = false) ∧
        index p (k + 1) = some d ∧ (isSlash d = true ∨ d = 46))) :
    volumeNameLen p = some 0 ∧
      volumeNameLen (str "relative") = some 0 ∧
      volumeNameLen (str "\\\\server\\.") = some 0 := by
  refine ⟨?_, by decide,
    by simp [volumeNameLen, str, index, uncGuard, uncLoop, shareLoop, isSlash]⟩
  rw [volumeNameLen_of_not_drive p hnd]
  obtain ⟨g, hg⟩ := uncGuard_total p p.length (le_refl _)
  cases g with
  | false => rw [hg]
  | true =>
    rw [hg]
    simp only
    obtain ⟨h5, p0, p1, p2, e0, s0, e1, s1, e2, s2, d2⟩ := (uncGuard_true_iff p p.length).mp hg
    rcases h with h | h | h | ⟨c, hc, hcs⟩ | h | ⟨k, c, d, hk3, hkl, hc, hcs, hno, hd, hds⟩
    · omega
    · rw [h p0 e0] at s0
      cases s0
    · rw [h p1 e1] at s1
      cases s1
    · rw [e2] at hc
      cases hc
      rcases hcs with hcs | hcs
      · rw [s2] at hcs
        cases hcs
      · exact absurd hcs d2
    · exact uncLoop_none p p.length 3 (le_refl _)
        (fun j c h1 h2 h3 => h j c h1 (by omega) h3)
    · rw [uncLoop_found p p.length 3 k d (le_refl _) hk3 (by omega) hno ⟨c, hc, hcs⟩ hd,
        if_pos hds]

/-- Witness of C15: `\\server\\x`, where the byte after the separator that ends
the server name is a separator. -/
theorem volumeNameLen_zero_witness :
    volumeNameLen (str "\\\\server\\\\x") = some 0 ∧
      volumeNameLen (str "relative") = some 0 ∧
      volumeNameLen (str "\\\\server\\.") = some 0 :=
  volumeNameLen_zero (str "\\\\server\\\\x") (by decide)
    (Or.inr (Or.inr (Or.inr (Or.inr (Or.inr ⟨8, 92, 92, by decide, by decide, by decide,
      by decide, by
        intro j e h3 h8 hje
        have hj : j = 3 ∨ j = 4 ∨ j = 5 ∨ j = 6 ∨ j = 7 := by omega
        rcases hj with rfl | rfl | rfl | rfl | rfl <;>
          (simp [index, str] at hje; subst hje; decide),
      by decide, Or.inl (by decide)⟩)))))

/-- Witness of C18: the path `\\server\share\dir` on a POSIX host. -/
theorem no_panic_witness :
    ∃ n, volumeNameLen (str "\\\\server\\share\\dir") = some n ∧ 0 ≤ n ∧
      n ≤ (str "\\\\server\\share\\dir").length ∧
      (∃ v, sliceTo (str "\\\\server\\share\\dir") n = some v) ∧
      (∃ rest, sliceFrom (str "\\\\server\\share\\dir") n = some rest ∧
        (rest ≠ [] → ∃ c, index rest 0 = some c)) ∧
      (∃ b, windowsPathAbs (str "\\\\server\\share\\dir") = some b) ∧
      (∃ b, validateMountAbs linux (str "\\\\server\\share\\dir") = some b) :=
  no_panic linux (str "\\\\server\\share\\dir")

/-- Witness of C19: the path `\\server\share\dir`, of volume-name length 14. -/
theorem volumeNameLen_values_witness :
    ∃ n, volumeNameLen (str "\\\\server\\share\\dir") = some n ∧
      (n = 0 ∨ n = 2 ∨ 5 ≤ n) ∧
      (n = 2 → driveLetterForm (str "\\\\server\\share\\dir") = true) ∧
      (5 ≤ n →
        (n = (str "\\\\server\\share\\dir").length ∨
          ∃ c, index (str "\\\\server\\share\\dir") n = some c ∧ isSlash c = true) ∧
        (windowsPathAbs (str "\\\\server\\share\\dir") = some true ↔
          n < (str "\\\\server\\share\\dir").length) ∧
        (windowsPathAbs (str "\\\\server\\share\\dir") = some false ↔
          n = (str "\\\\server\\share\\dir").length)) :=
  volumeNameLen_values (str "\\\\server\\share\\dir")

/-- Witness of C20: the path `\\server\share\dir`, whose volume name is
`\\server\share`. -/
theorem volumeNameLen_idempotent_witness :
    ∃ n v, volumeNameLen (str "\\\\server\\share\\dir") = some n ∧
      sliceTo (str "\\\\server\\share\\dir") n = some v ∧
      volumeNameLen v = some v.length ∧ v.length = n ∧ (n = 0 → v = []) :=
  volumeNameLen_idempotent (str "\\\\server\\share\\dir")

end Validate
